import Mathlib

/-!
Shallow embedding of `oc_client_provider/app/routes.py`: the Flask routing
layer of the client-provider service.  Python/JSON values are modelled by the
inductive type `Val`; the collaborators (`ClientGetter`, `ClientTF`) are
opaque in the source and are therefore parameters of the embedded handlers.
Python exceptions raised by a collaborator are modelled by `Except String`,
the `String` being the text the handler would interpolate into the response.
-/

/-- A Python value as far as this routing layer can observe it: the
JSON-serializable values (`None`, booleans, integers, strings, lists and
string-keyed dicts, the latter in insertion order). -/
inductive Val : Type where
  | null : Val
  | bool (b : Bool) : Val
  | int (i : Int) : Val
  | str (s : String) : Val
  | arr (xs : List Val) : Val
  | obj (kvs : List (String × Val)) : Val

/-- Python truthiness of a `Val`: `None`, `False`, `0`, `""`, `[]`, and
an empty dict are falsy, everything else is truthy. -/
def pyTruthy : Val → Bool
  | .null => false
  | .bool b => b
  | .int i => decide (i ≠ 0)
  | .str s => decide (s ≠ "")
  | .arr [] => false
  | .arr (_ :: _) => true
  | .obj [] => false
  | .obj (_ :: _) => true

/-- Python falsiness, i.e. what `not x` / `if not x` tests. -/
def pyFalsy (v : Val) : Bool := !pyTruthy v

/-- `a or b` for Python values: `a` when truthy, else `b`. -/
def pyOr (a b : Val) : Val := if pyTruthy a then a else b

/-- Association-list lookup, modelling `dict.__getitem__` resolution order
(keys of a Python dict are unique, so the first hit is the only one). -/
def lookupKey (kvs : List (String × Val)) (k : String) : Option Val :=
  match kvs with
  | [] => none
  | (k0, v) :: rest => if k0 = k then some v else lookupKey rest k

/-- `d.get(k)` on a dict modelled as an association list: `None` if absent. -/
def jsonGet (kvs : List (String × Val)) (k : String) : Val :=
  (lookupKey kvs k).getD Val.null

/-- `d.get(k, default)` on a dict modelled as an association list. -/
def jsonGetD (kvs : List (String × Val)) (k : String) (d : Val) : Val :=
  (lookupKey kvs k).getD d

/-- The double-quote character. -/
def quoteC : Char := Char.ofNat 34

/-- The backslash character. -/
def backslashC : Char := Char.ofNat 92

/-- The opening-brace character. -/
def lbraceC : Char := Char.ofNat 123

/-- The closing-brace character. -/
def rbraceC : Char := Char.ofNat 125

/-- The ASCII whitespace characters stripped by Python's `str.strip()`:
space, tab, newline, carriage return, vertical tab, form feed. -/
def pySpace (c : Char) : Bool :=
  c = ' ' || c = '\t' || c = '\n' || c = '\r' || c = Char.ofNat 11 || c = Char.ofNat 12

/-- `str.strip()` on the character list of a string. -/
def stripChars (l : List Char) : List Char :=
  ((l.dropWhile pySpace).reverse.dropWhile pySpace).reverse

/-- `"\t" -> " "` single-character replacement. -/
def repTab (c : Char) : Char := if c = '\t' then ' ' else c

/-- `" " -> "_"` single-character replacement. -/
def repSpace (c : Char) : Char := if c = ' ' then '_' else c

/-- `v.strip().replace("\t", " ").replace(" ", "_")` from `_adjust_arguments`,
on character lists. -/
def transformChars (l : List Char) : List Char :=
  ((stripChars l).map repTab).map repSpace

/-- `v.strip().replace("\t", " ").replace(" ", "_")` on strings. -/
def transformArg (s : String) : String := String.mk (transformChars s.data)

/-- `_adjust_arguments` from `routes.py`: iterate over the keys of the
mapping; non-string values are left alone; string values are stripped,
tabs become spaces, spaces become underscores; keys whose transformed
string value is empty are deleted.  The mapping is modelled as an
association list in insertion order; the in-place mutation of the dict
becomes a `filterMap` that keeps the position of surviving keys. -/
def adjust_arguments (args : List (String × Val)) : List (String × Val) :=
  args.filterMap fun kv =>
    match kv.2 with
    | .str s =>
      let v := transformArg s
      if v = "" then none else some (kv.1, .str v)
    | _ => some kv

/-- Lowercase-hex digit, as produced by Python's `\uXXXX` escapes. -/
def hexDigitC (n : Nat) : Char :=
  if n < 10 then Char.ofNat (48 + n) else Char.ofNat (87 + n)

/-- Four-digit lowercase hex rendering of `n % 65536`. -/
def hex4 (n : Nat) : List Char :=
  [hexDigitC (n / 4096 % 16), hexDigitC (n / 256 % 16),
   hexDigitC (n / 16 % 16), hexDigitC (n % 16)]

/-- `json.dumps` escaping of one character (default `ensure_ascii=True`):
quote, backslash and the short control escapes get two-character escapes,
other control and all non-ASCII characters become `\uXXXX` (a surrogate
pair for code points above the BMP); printable ASCII passes through. -/
def escChar (c : Char) : List Char :=
  let n := c.toNat
  if c = quoteC then [backslashC, quoteC]
  else if c = backslashC then [backslashC, backslashC]
  else if c = '\n' then [backslashC, 'n']
  else if c = '\t' then [backslashC, 't']
  else if c = '\r' then [backslashC, 'r']
  else if n = 8 then [backslashC, 'b']
  else if n = 12 then [backslashC, 'f']
  else if n < 32 || 126 < n then
    if n < 65536 then backslashC :: 'u' :: hex4 n
    else
      (backslashC :: 'u' :: hex4 (55296 + (n - 65536) / 1024)) ++
      (backslashC :: 'u' :: hex4 (56320 + (n - 65536) % 1024))
  else [c]

/-- `json.dumps` escaping of a whole string body (without the quotes). -/
def escString (s : String) : List Char := s.data.flatMap escChar

/-- Decimal digit character. -/
def digitC (n : Nat) : Char := Char.ofNat (48 + n)

/-- Decimal rendering of a natural number (Python `str(int)` for `n >= 0`). -/
def natChars (n : Nat) : List Char :=
  if h : n < 10 then [digitC n]
  else natChars (n / 10) ++ [digitC (n % 10)]
decreasing_by exact Nat.div_lt_self (by omega) (by omega)

/-- Decimal rendering of an integer (Python `str(int)`). -/
def intChars (i : Int) : List Char :=
  if i < 0 then '-' :: natChars (-i).toNat else natChars i.toNat

mutual
/-- `json.dumps` with its default separators `", "` and `": "` and default
`ensure_ascii=True`, producing a character list. -/
def dumpsChars : Val → List Char
  | .null => 'n' :: 'u' :: 'l' :: 'l' :: []
  | .bool true => 't' :: 'r' :: 'u' :: 'e' :: []
  | .bool false => 'f' :: 'a' :: 'l' :: 's' :: 'e' :: []
  | .int i => intChars i
  | .str s => quoteC :: (escString s ++ [quoteC])
  | .arr xs => '[' :: (dumpsItems xs ++ [']'])
  | .obj kvs => lbraceC :: (dumpsMembers kvs ++ [rbraceC])

/-- The comma-separated items of a dumped JSON array. -/
def dumpsItems : List Val → List Char
  | [] => []
  | [x] => dumpsChars x
  | x :: y :: xs => dumpsChars x ++ ',' :: ' ' :: dumpsItems (y :: xs)

/-- The comma-separated `"key": value` members of a dumped JSON object. -/
def dumpsMembers : List (String × Val) → List Char
  | [] => []
  | [(k, v)] => (quoteC :: (escString k ++ [quoteC])) ++ ':' :: ' ' :: dumpsChars v
  | (k, v) :: kv :: kvs =>
    (quoteC :: (escString k ++ [quoteC])) ++ ':' :: ' ' :: dumpsChars v ++
      ',' :: ' ' :: dumpsMembers (kv :: kvs)
end

/-- `json.dumps` as a string. -/
def dumps (v : Val) : String := String.mk (dumpsChars v)

/-- A Flask `Response` as constructed in `routes.py`: status code, the
`content_type` argument when given, the `mimetype` argument when given,
and the body text. -/
structure HResponse : Type where
  status : Nat
  content_type : Option String
  mimetype : Option String
  response : String
deriving DecidableEq

/-- `response_json` from `routes.py`: a payload that is already a string is
sent verbatim, anything else is serialized with `json.dumps`; both
`content_type` and `mimetype` are set to `application/json`. -/
def response_json (code : Nat) (data : Val) : HResponse :=
  let body := match data with
    | .str s => s
    | v => dumps v
  ⟨code, some "application/json", some "application/json", body⟩

mutual
/-- Python `repr` of a value, as used by `str()` on containers.  Only its
existence matters to the claims (CSV cell rendering, the not-found message
of the deliveries endpoints); strings are rendered single-quoted without
further escaping. -/
def pyRepr : Val → String
  | .null => "None"
  | .bool true => "True"
  | .bool false => "False"
  | .int i => String.mk (intChars i)
  | .str s => "'" ++ s ++ "'"
  | .arr xs => "[" ++ pyReprItems xs ++ "]"
  | .obj kvs => String.mk [lbraceC] ++ pyReprMembers kvs ++ String.mk [rbraceC]

/-- The comma-separated items of a Python list `repr`. -/
def pyReprItems : List Val → String
  | [] => ""
  | [x] => pyRepr x
  | x :: y :: xs => pyRepr x ++ ", " ++ pyReprItems (y :: xs)

/-- The comma-separated members of a Python dict `repr`. -/
def pyReprMembers : List (String × Val) → String
  | [] => ""
  | [(k, v)] => "'" ++ k ++ "': " ++ pyRepr v
  | (k, v) :: kv :: kvs => "'" ++ k ++ "': " ++ pyRepr v ++ ", " ++ pyReprMembers (kv :: kvs)
end

/-- Python `str()` of a value, used when interpolating into messages. -/
def pyStr : Val → String
  | .str s => s
  | v => pyRepr v

/-- How the `csv` writer renders one cell: `None` becomes the empty string,
strings pass through, other values are rendered with `str()`. -/
def csvCell : Val → String
  | .null => ""
  | .str s => s
  | v => pyStr v

/-- A CSV field needs quoting (QUOTE_MINIMAL) when it contains the
delimiter, the quote character, or a CR/LF. -/
def csvQuoteNeeded (s : String) : Bool :=
  s.data.any fun c => c = ',' || c = quoteC || c = '\r' || c = '\n'

/-- One CSV field, quoted if needed, inner quotes doubled. -/
def csvField (s : String) : String :=
  if csvQuoteNeeded s then
    String.mk [quoteC] ++
      String.mk (s.data.flatMap fun c => if c = quoteC then [quoteC, quoteC] else [c]) ++
      String.mk [quoteC]
  else s

/-- One CSV row with the default `\r\n` line terminator. -/
def csvRow (fields : List String) : String :=
  String.intercalate "," (fields.map csvField) ++ "\r\n"

/-- `csv.DictWriter.writerow` on one record: a non-dict record or a record
with a key outside the header raises (`None` result); missing keys fall
back to the empty `restval`. -/
def csvRowOf (headers : List String) : Val → Option String
  | .obj kvs =>
    if kvs.all (fun kv => headers.contains kv.1) then
      some (csvRow (headers.map fun h => (lookupKey kvs h).map csvCell |>.getD ""))
    else none
  | _ => none

/-- `csv.DictWriter.writerows` over the record list. -/
def csvRows (headers : List String) (l : List Val) : Option (List String) :=
  l.mapM (csvRowOf headers)

/-- The body produced by `response_csv` from `routes.py` (the content of
the `StringIO` buffer): a falsy payload is replaced by the empty list, a
non-list payload is wrapped in a singleton list; an empty list yields an
empty body; otherwise the first record's keys become the header row,
followed by one row per record.  A `none` result models an uncaught
Python exception (non-dict record, or a record whose keys stray from the
header). -/
def response_csv_body (data : Val) : Option String :=
  let d := if pyFalsy data then Val.arr [] else data
  let l := match d with
    | .arr xs => xs
    | x => [x]
  match l with
  | [] => some ""
  | x :: _ =>
    match x with
    | .obj kvs =>
      let headers := kvs.map Prod.fst
      match csvRows headers l with
      | none => none
      | some rows => some (csvRow headers ++ String.join rows)
    | _ => none

/-- The response wrapper of `response_csv`: `si.getvalue()` as the body,
only `mimetype` set. -/
def response_csv (code : Nat) (data : Val) : Option HResponse :=
  (response_csv_body data).map fun b => ⟨code, none, some "text/csv", b⟩

/-- HTTP methods accepted by `/sync_customer_tf`. -/
inductive Method : Type where
  | GET : Method
  | PUT : Method
  | DELETE : Method
deriving DecidableEq

/-- The opaque `ClientTF` collaborator: `get_client` returns the filtered
record list for the (normalized) query arguments; `put_client` and
`delete_client` mutate and either succeed or raise, the raised exception
modelled by the `String` that `repr(_e)` would interpolate into the 400
response body. -/
structure ClientTF : Type where
  get_client : List (String × Val) → Val
  put_client : List (String × Val) → Except String Unit
  delete_client : List (String × Val) → Except String Unit

/-- The `/sync_customer_tf` handler from `routes.py`, parameterized over the
`ClientTF` collaborator, the HTTP method, the query-string arguments and the
JSON body (both mappings).  Query arguments are normalized with
`_adjust_arguments`; for PUT/DELETE the mutation method selected by the
lower-cased method name runs first on the normalized JSON body and a raised
exception short-circuits into a 400 response; otherwise the handler returns
`get_client` on the normalized query arguments with status 201 for PUT and
200 otherwise. -/
def sync_customer_tf (tf : ClientTF) (method : Method)
    (args rqJson : List (String × Val)) : HResponse :=
  let rqArgs := adjust_arguments args
  match method with
  | .GET => response_json 200 (tf.get_client rqArgs)
  | .PUT =>
    match tf.put_client (adjust_arguments rqJson) with
    | .error e => response_json 400 (.obj [("result", .str e)])
    | .ok _ => response_json 201 (tf.get_client rqArgs)
  | .DELETE =>
    match tf.delete_client (adjust_arguments rqJson) with
    | .error e => response_json 400 (.obj [("result", .str e)])
    | .ok _ => response_json 200 (tf.get_client rqArgs)

/-- Truthiness of the `(delivery_list, error)` pair's error component:
`None` and the empty string are falsy, any other string truthy (Python
`if error:`). -/
def errTruthy : Option String → Bool
  | none => false
  | some s => decide (s ≠ "")

/-- `GET /clients` and `GET /rundeck/clients` (`get_client_list` in
`routes.py`), parameterized over the collaborator outcome: an exception in
`client_getter.get_clients()` yields 500; an empty list yields 404 except
on the rundeck alias, which returns the empty list; the rundeck alias sorts
the list in place before responding. -/
def get_client_list (isRundeck : Bool) (clients : Except String (List String)) : HResponse :=
  match clients with
  | .error e => response_json 500 (.obj [("result", .str e)])
  | .ok client_list =>
    if client_list = [] ∧ isRundeck = false then
      response_json 404 (.obj [("result", .str "Client not found")])
    else
      response_json 200
        (.arr ((if isRundeck then client_list.mergeSort (fun a b => decide (a ≤ b))
                else client_list).map .str))

/-- The string truthiness workaround for the `csv` body field of
`/deliveries`: a string counts as true iff it strips and lowercases to
`""`, `"yes"` or `"true"`. -/
def csvFlagOfString (s : String) : Bool :=
  let t := (String.mk (stripChars s.data)).toLower
  t = "" || t = "yes" || t = "true"

/-- `POST /deliveries` (`get_client_deliveries` in `routes.py`),
parameterized over the `client_getter.get_deliveries` collaborator, which
receives the client value, the search parameters and the timezone and
returns a `(delivery_list, error)` pair.  A falsy `client` yields 400
before the collaborator is consulted; an empty list with falsy error
yields 404; a truthy error yields 500; otherwise the list is returned with
status 201, as CSV when the `csv` flag is truthy and as JSON otherwise.
The `Option` result models exception propagation out of `response_csv`. -/
def get_client_deliveries
    (get_deliveries : Val → Val → Val → List Val × Option String)
    (body : List (String × Val)) : Option HResponse :=
  let timezone := pyOr (jsonGet body "timezone") (.str "Etc/UTC")
  let need_csv0 := jsonGetD body "csv" (.bool true)
  let need_csv : Val := match need_csv0 with
    | .str s => .bool (csvFlagOfString s)
    | v => v
  let client := jsonGet body "client"
  if pyFalsy client then
    some (response_json 400 (.obj [("result", .str "Client code must be specified")]))
  else
    let search_params := pyOr (jsonGet body "search_params") (.obj [])
    let res := get_deliveries client search_params timezone
    if res.1.isEmpty && !errTruthy res.2 then
      some (response_json 404
        (.obj [("result", .str ("No deliveries found for client " ++ pyStr client))]))
    else if errTruthy res.2 then
      some (response_json 500 (.obj [("result", .str (res.2.getD ""))]))
    else if pyTruthy need_csv then
      response_csv 201 (.arr res.1)
    else
      some (response_json 201 (.arr res.1))

/-- `POST /v2/deliveries` (`get_client_deliveries_v2` in `routes.py`): like
`/deliveries` but without the CSV option, and with the 400 body passed to
`response_json` as an already-serialized string. -/
def get_client_deliveries_v2
    (get_deliveries_v2 : Val → Val → Val → List Val × Option String)
    (body : List (String × Val)) : HResponse :=
  let timezone := pyOr (jsonGet body "timezone") (.str "Etc/UTC")
  let client := jsonGet body "client"
  if pyFalsy client then
    response_json 400 (.str "\x7b\"result\": \"Client code must be specified\"\x7d")
  else
    let search_params := pyOr (jsonGet body "search_params") (.obj [])
    let res := get_deliveries_v2 client search_params timezone
    if res.1.isEmpty && !errTruthy res.2 then
      response_json 404
        (.obj [("result", .str ("No deliveries found for client " ++ pyStr client))])
    else if errTruthy res.2 then
      response_json 500 (.obj [("result", .str (res.2.getD ""))])
    else
      response_json 201 (.arr res.1)

/-- JSON insignificant whitespace, as skipped by `json.loads`. -/
def jsonWs (c : Char) : Bool := c = ' ' || c = '\t' || c = '\n' || c = '\r'

/-- Decimal digit test on a character. -/
def isDigitC (c : Char) : Bool := 48 ≤ c.toNat && c.toNat ≤ 57

/-- Value of a hex digit character (either case). -/
def hexVal (c : Char) : Option Nat :=
  let n := c.toNat
  if 48 ≤ n && n ≤ 57 then some (n - 48)
  else if 97 ≤ n && n ≤ 102 then some (n - 87)
  else if 65 ≤ n && n ≤ 70 then some (n - 55)
  else none

/-- Parse exactly four hex digits into their value. -/
def parseHex4 : List Char → Option (Nat × List Char)
  | a :: b :: c :: d :: rest =>
    match hexVal a, hexVal b, hexVal c, hexVal d with
    | some va, some vb, some vc, some vd => some (va * 4096 + vb * 256 + vc * 16 + vd, rest)
    | _, _, _, _ => none
  | _ => none

/-- Numeric value of a run of decimal digit characters. -/
def digitsVal (l : List Char) : Nat := l.foldl (fun a c => a * 10 + (c.toNat - 48)) 0

/-- Parse a JSON integer: an optional minus sign followed by a maximal
nonempty digit run (fractions and exponents, which `json.dumps` never emits
for the values modelled here, are not recognized). -/
def parseNumber (cs : List Char) : Option (Int × List Char) :=
  match cs with
  | [] => none
  | c :: rest =>
    if c = '-' then
      let ds := rest.takeWhile isDigitC
      if ds = [] then none else some (-(digitsVal ds : Int), rest.dropWhile isDigitC)
    else
      let ds := cs.takeWhile isDigitC
      if ds = [] then none else some ((digitsVal ds : Int), cs.dropWhile isDigitC)

/-- Parse the body of a JSON string after the opening quote, undoing the
escapes `json.dumps` can produce (including surrogate pairs); returns the
decoded characters and the input after the closing quote.  Fuel decreases
once per decoded character and is in particular sufficient when it exceeds
the input length. -/
def parseStringBody : Nat → List Char → Option (List Char × List Char)
  | 0, _ => none
  | fuel + 1, cs =>
    match cs with
    | [] => none
    | c :: rest =>
      if c = quoteC then some ([], rest)
      else if c = backslashC then
        match rest with
        | [] => none
        | e :: rest2 =>
          if e = quoteC then (parseStringBody fuel rest2).map fun p => (quoteC :: p.1, p.2)
          else if e = backslashC then
            (parseStringBody fuel rest2).map fun p => (backslashC :: p.1, p.2)
          else if e = '/' then (parseStringBody fuel rest2).map fun p => ('/' :: p.1, p.2)
          else if e = 'n' then (parseStringBody fuel rest2).map fun p => ('\n' :: p.1, p.2)
          else if e = 't' then (parseStringBody fuel rest2).map fun p => ('\t' :: p.1, p.2)
          else if e = 'r' then (parseStringBody fuel rest2).map fun p => ('\r' :: p.1, p.2)
          else if e = 'b' then
            (parseStringBody fuel rest2).map fun p => (Char.ofNat 8 :: p.1, p.2)
          else if e = 'f' then
            (parseStringBody fuel rest2).map fun p => (Char.ofNat 12 :: p.1, p.2)
          else if e = 'u' then
            match parseHex4 rest2 with
            | none => none
            | some (n, rest3) =>
              if 55296 ≤ n && n ≤ 56319 then
                match rest3 with
                | b1 :: u1 :: rest4 =>
                  if b1 = backslashC && u1 = 'u' then
                    match parseHex4 rest4 with
                    | none => none
                    | some (m, rest5) =>
                      if 56320 ≤ m && m ≤ 57343 then
                        (parseStringBody fuel rest5).map fun p =>
                          (Char.ofNat (65536 + (n - 55296) * 1024 + (m - 56320)) :: p.1, p.2)
                      else none
                  else none
                | _ => none
              else if 56320 ≤ n && n ≤ 57343 then none
              else (parseStringBody fuel rest3).map fun p => (Char.ofNat n :: p.1, p.2)
          else none
      else (parseStringBody fuel rest).map fun p => (c :: p.1, p.2)

/-- Match an expected literal token at the head of the input. -/
def expectTok : List Char → List Char → Option (List Char)
  | [], cs => some cs
  | _ :: _, [] => none
  | t :: ts, c :: cs => if c = t then expectTok ts cs else none

mutual
/-- Recursive-descent JSON parser, modelling `json.loads` on the documents
`json.dumps` produces: skips leading whitespace and parses one JSON value,
returning it and the rest of the input.  Structural fuel bounds the
recursion depth. -/
def parseVal : Nat → List Char → Option (Val × List Char)
  | 0, _ => none
  | fuel + 1, cs0 =>
    let cs := cs0.dropWhile jsonWs
    match cs with
    | [] => none
    | c :: rest =>
      if c = 'n' then (expectTok ['u', 'l', 'l'] rest).map fun r => (.null, r)
      else if c = 't' then (expectTok ['r', 'u', 'e'] rest).map fun r => (.bool true, r)
      else if c = 'f' then (expectTok ['a', 'l', 's', 'e'] rest).map fun r => (.bool false, r)
      else if c = quoteC then
        (parseStringBody (rest.length + 1) rest).map fun p => (.str (String.mk p.1), p.2)
      else if c = '[' then
        let inner := rest.dropWhile jsonWs
        match inner with
        | d :: rest2 =>
          if d = ']' then some (.arr [], rest2)
          else (parseItems fuel rest).map fun p => (.arr p.1, p.2)
        | [] => none
      else if c = lbraceC then
        let inner := rest.dropWhile jsonWs
        match inner with
        | d :: rest2 =>
          if d = rbraceC then some (.obj [], rest2)
          else (parseMembers fuel rest).map fun p => (.obj p.1, p.2)
        | [] => none
      else if c = '-' || isDigitC c then
        (parseNumber cs).map fun p => (.int p.1, p.2)
      else none

/-- Parse `value (culminating in a closing bracket)`: one or more
comma-separated JSON values followed by `]`. -/
def parseItems : Nat → List Char → Option (List Val × List Char)
  | 0, _ => none
  | fuel + 1, cs =>
    match parseVal fuel cs with
    | none => none
    | some (v, rest) =>
      match rest.dropWhile jsonWs with
      | [] => none
      | c :: rest2 =>
        if c = ',' then (parseItems fuel rest2).map fun p => (v :: p.1, p.2)
        else if c = ']' then some ([v], rest2)
        else none

/-- Parse one or more comma-separated `"key": value` members followed
by the closing brace. -/
def parseMembers : Nat → List Char → Option (List (String × Val) × List Char)
  | 0, _ => none
  | fuel + 1, cs =>
    match cs.dropWhile jsonWs with
    | [] => none
    | c :: rest =>
      if c = quoteC then
        match parseStringBody (rest.length + 1) rest with
        | none => none
        | some (kChars, rest2) =>
          match rest2.dropWhile jsonWs with
          | [] => none
          | d :: rest3 =>
            if d = ':' then
              match parseVal fuel rest3 with
              | none => none
              | some (v, rest4) =>
                match rest4.dropWhile jsonWs with
                | [] => none
                | e :: rest5 =>
                  if e = ',' then
                    (parseMembers fuel rest5).map fun p =>
                      ((String.mk kChars, v) :: p.1, p.2)
                  else if e = rbraceC then some ([(String.mk kChars, v)], rest5)
                  else none
            else none
      else none
end

mutual
/-- Fuel bound for `parseVal`: one unit per tree node, matching how the
parser spends fuel. -/
def valSize : Val → Nat
  | .null => 1
  | .bool _ => 1
  | .int _ => 1
  | .str _ => 1
  | .arr xs => 1 + itemsSize xs
  | .obj kvs => 1 + membersSize kvs

/-- Fuel bound for `parseItems`. -/
def itemsSize : List Val → Nat
  | [] => 0
  | x :: xs => 1 + valSize x + itemsSize xs

/-- Fuel bound for `parseMembers`. -/
def membersSize : List (String × Val) → Nat
  | [] => 0
  | (_, v) :: kvs => 1 + valSize v + membersSize kvs
end

/-- `json.loads` on a whole document: parse one value with ample fuel and
require only insignificant whitespace to remain. -/
def loads (s : String) : Option Val :=
  match parseVal (s.data.length + 1) s.data with
  | none => none
  | some (v, rest) => if (rest.dropWhile jsonWs).isEmpty then some v else none

/-- After a serialized number, the input may not continue with a digit
(otherwise the digit run would extend); every delimiter `json.dumps` can
emit after a value, and the end of input, satisfy this. -/
def numOk : List Char → Bool
  | [] => true
  | c :: _ => !isDigitC c

/-- Claim C1: for `/sync_customer_tf`, on every method whose mutation phase
does not raise (GET has none; for PUT/DELETE the dynamically dispatched
`put_client`/`delete_client` receives the normalized JSON body and must
succeed), the handler finishes by calling `get_client` with the normalized
query arguments and returns that lookup as the response, with status 201
for PUT and 200 for GET and DELETE. -/
theorem C1_sync_customer_tf_reads_back (tf : ClientTF) (method : Method)
    (args rqJson : List (String × Val))
    (h : method = .GET
      ∨ method = .PUT ∧ tf.put_client (adjust_arguments rqJson) = .ok ()
      ∨ method = .DELETE ∧ tf.delete_client (adjust_arguments rqJson) = .ok ()) :
    sync_customer_tf tf method args rqJson
      = response_json (if method = .PUT then 201 else 200)
          (tf.get_client (adjust_arguments args)) := by
  rcases h with h | ⟨h, he⟩ | ⟨h, he⟩
  · subst h; simp [sync_customer_tf]
  · subst h; simp [sync_customer_tf, he]
  · subst h; simp [sync_customer_tf, he]

/-- Witness for C1 at a concrete collaborator and a GET request. -/
theorem C1_sync_customer_tf_reads_back_witness :
    sync_customer_tf ⟨fun _ => .null, fun _ => .ok (), fun _ => .ok ()⟩ .GET [] []
      = response_json (if Method.GET = Method.PUT then 201 else 200)
          ((⟨fun _ => .null, fun _ => .ok (), fun _ => .ok ()⟩ : ClientTF).get_client
            (adjust_arguments [])) :=
  C1_sync_customer_tf_reads_back _ _ _ _ (Or.inl rfl)

/-- Claim C2: for `/sync_customer_tf` with PUT or DELETE, when the
dispatched mutation raises (modelled by `Except.error e`, `e` being the
stringified exception), the handler answers 400 with `e` in the `result`
field, and the `get_client` lookup is not performed: the response does not
depend on the `get_client` component at all. -/
theorem C2_sync_customer_tf_mutation_error
    (g g2 : List (String × Val) → Val)
    (pc dc : List (String × Val) → Except String Unit)
    (method : Method) (args rqJson : List (String × Val)) (e : String)
    (h : method = .PUT ∧ pc (adjust_arguments rqJson) = .error e
       ∨ method = .DELETE ∧ dc (adjust_arguments rqJson) = .error e) :
    sync_customer_tf ⟨g, pc, dc⟩ method args rqJson
      = response_json 400 (.obj [("result", .str e)])
    ∧ sync_customer_tf ⟨g, pc, dc⟩ method args rqJson
      = sync_customer_tf ⟨g2, pc, dc⟩ method args rqJson := by
  rcases h with ⟨h, he⟩ | ⟨h, he⟩ <;> subst h <;>
    exact ⟨by simp [sync_customer_tf, he], by simp [sync_customer_tf, he]⟩

/-- Witness for C2: a PUT whose `put_client` raises. -/
theorem C2_sync_customer_tf_mutation_error_witness :
    sync_customer_tf ⟨fun _ => .null, fun _ => .error "boom", fun _ => .ok ()⟩ .PUT [] []
      = response_json 400 (.obj [("result", .str "boom")])
    ∧ sync_customer_tf ⟨fun _ => .null, fun _ => .error "boom", fun _ => .ok ()⟩ .PUT [] []
      = sync_customer_tf ⟨fun _ => .int 7, fun _ => .error "boom", fun _ => .ok ()⟩ .PUT [] [] :=
  C2_sync_customer_tf_mutation_error _ _ _ _ _ _ _ "boom" (Or.inl ⟨rfl, rfl⟩)

/-- Claim C4: on an empty collaborator list, `GET /clients` answers 404
with body `{"result": "Client not found"}` while `GET /rundeck/clients`
answers 200 with the empty JSON array. -/
theorem C4_empty_list_split :
    get_client_list false (.ok [])
      = response_json 404 (.obj [("result", .str "Client not found")])
    ∧ get_client_list true (.ok []) = response_json 200 (.arr []) :=
  ⟨rfl, by simp [get_client_list, List.mergeSort_nil]⟩

/-- Claim C9: `POST /deliveries` with a missing or falsy `client` field
answers 400 with "Client code must be specified", whatever the other
fields hold, and without consulting the collaborator (the response is the
same for every `get_deliveries`). -/
theorem C9_deliveries_missing_client
    (f g2 : Val → Val → Val → List Val × Option String)
    (body : List (String × Val))
    (h : pyFalsy (jsonGet body "client") = true) :
    get_client_deliveries f body
      = some (response_json 400 (.obj [("result", .str "Client code must be specified")]))
    ∧ get_client_deliveries f body = get_client_deliveries g2 body := by
  refine ⟨?_, ?_⟩ <;> simp [get_client_deliveries, h]

/-- Witness for C9: an empty body and two observably different
collaborators. -/
theorem C9_deliveries_missing_client_witness :
    get_client_deliveries (fun _ _ _ => ([], none)) []
      = some (response_json 400 (.obj [("result", .str "Client code must be specified")]))
    ∧ get_client_deliveries (fun _ _ _ => ([], none)) []
      = get_client_deliveries (fun _ _ _ => ([Val.null], some "x")) [] :=
  C9_deliveries_missing_client _ _ [] rfl

/-- Every response `response_csv` actually returns carries the status code
it was given. -/
theorem response_csv_status (c : Nat) (v : Val) (r : HResponse)
    (h : response_csv c v = some r) : r.status = c := by
  unfold response_csv at h
  cases hb : response_csv_body v with
  | none => rw [hb] at h; cases h
  | some b =>
    rw [hb] at h
    obtain rfl := Option.some.inj h
    rfl

/-- Claim C10: on a non-empty collaborator list, `GET /rundeck/clients`
returns the list sorted alphabetically (a sorted permutation of the input)
while `GET /clients` returns it in the collaborator's order, unchanged. -/
theorem C10_sorting_rule (cl : List String) (h : cl ≠ []) :
    get_client_list false (.ok cl) = response_json 200 (.arr (cl.map .str))
    ∧ get_client_list true (.ok cl)
      = response_json 200 (.arr ((cl.mergeSort fun a b => decide (a ≤ b)).map .str))
    ∧ (cl.mergeSort fun a b => decide (a ≤ b)).Sorted (· ≤ ·)
    ∧ List.Perm (cl.mergeSort fun a b => decide (a ≤ b)) cl := by
  refine ⟨by simp [get_client_list, h], by simp [get_client_list, h], ?_,
    List.mergeSort_perm cl _⟩
  have hp := @List.sorted_mergeSort String (fun a b : String => decide (a ≤ b))
    (fun a b c hab hbc => by
      simp only [decide_eq_true_eq] at *
      exact le_trans hab hbc)
    (fun a b => by simpa using le_total a b) cl
  exact hp.imp fun hab => of_decide_eq_true hab

/-- Witness for C10 at the two-element unsorted list `["b", "a"]`. -/
theorem C10_sorting_rule_witness :
    get_client_list false (.ok ["b", "a"])
      = response_json 200 (.arr ((["b", "a"] : List String).map .str))
    ∧ get_client_list true (.ok ["b", "a"])
      = response_json 200
          (.arr (((["b", "a"] : List String).mergeSort fun a b => decide (a ≤ b)).map .str))
    ∧ ((["b", "a"] : List String).mergeSort fun a b => decide (a ≤ b)).Sorted (· ≤ ·)
    ∧ List.Perm ((["b", "a"] : List String).mergeSort fun a b => decide (a ≤ b)) ["b", "a"] :=
  C10_sorting_rule ["b", "a"] (by decide)

/-- Counterexample to claim C5 as stated: for the empty mapping, the CSV
encoder yields an empty body (the falsy payload is replaced by the empty
list), while the one-element list containing the empty mapping yields two
CRLF rows; so "for every mapping m the encoder gives the same body on `m`
and on `[m]`" is false at `m = {}`. -/
theorem C5_counterexample :
    (response_csv 200 (Val.obj [])).map HResponse.response
      ≠ (response_csv 200 (Val.arr [Val.obj []])).map HResponse.response := by
  decide

/-- Claim C5, amended: for every NON-EMPTY mapping the CSV encoder gives
the same response on the mapping and on the one-element list containing
it; `None`, the empty list — and likewise the empty mapping, which is
falsy too — produce an empty body with no header row. -/
theorem C5_csv_singleton (code : Nat) (kvs : List (String × Val)) (h : kvs ≠ []) :
    response_csv code (.obj kvs) = response_csv code (.arr [.obj kvs])
    ∧ response_csv code .null = some ⟨code, none, some "text/csv", ""⟩
    ∧ response_csv code (.arr []) = some ⟨code, none, some "text/csv", ""⟩
    ∧ response_csv code (.obj []) = some ⟨code, none, some "text/csv", ""⟩ := by
  refine ⟨?_, rfl, rfl, rfl⟩
  cases kvs with
  | nil => exact absurd rfl h
  | cons kv kvs => rfl

/-- Witness for C5 (amended) at a one-field mapping. -/
theorem C5_csv_singleton_witness :
    response_csv 201 (.obj [("a", Val.str "x")])
      = response_csv 201 (.arr [.obj [("a", Val.str "x")]])
    ∧ response_csv 201 .null = some ⟨201, none, some "text/csv", ""⟩
    ∧ response_csv 201 (.arr []) = some ⟨201, none, some "text/csv", ""⟩
    ∧ response_csv 201 (.obj []) = some ⟨201, none, some "text/csv", ""⟩ :=
  C5_csv_singleton 201 [("a", Val.str "x")] (List.cons_ne_nil _ _)

/-- Counterexample to claim C3 as stated: the collaborator pair
`([], "")` has a non-null (empty-string) error, yet both delivery
handlers answer 404, not 500 — `if error:` is a truthiness test, so the
empty string does not reach the 500 branch. -/
theorem C3_counterexample :
    (get_client_deliveries (fun _ _ _ => ([], some "")) [("client", .str "c")]).map
        HResponse.status = some 404
    ∧ (get_client_deliveries_v2 (fun _ _ _ => ([], some "")) [("client", .str "c")]).status
        = 404 := by
  constructor <;> rfl

/-- Claim C3, amended: for `/deliveries` and `/v2/deliveries`, whenever
the collaborator pair carries a non-null AND non-empty error string, the
handler returns 500 with that error as the `result`, regardless of the
accompanying list; 404 is returned only when the list is empty and the
error is null or the empty string (the code tests truthiness, not
nullness). -/
theorem C3_error_yields_500 (l : List Val) (e : String) (body : List (String × Val))
    (hc : pyTruthy (jsonGet body "client") = true) (he : e ≠ "") :
    get_client_deliveries (fun _ _ _ => (l, some e)) body
      = some (response_json 500 (.obj [("result", .str e)]))
    ∧ get_client_deliveries_v2 (fun _ _ _ => (l, some e)) body
      = response_json 500 (.obj [("result", .str e)])
    ∧ (∀ l2 eo r, get_client_deliveries (fun _ _ _ => (l2, eo)) body = some r →
        r.status = 404 → l2 = [] ∧ errTruthy eo = false)
    ∧ (∀ l2 eo, (get_client_deliveries_v2 (fun _ _ _ => (l2, eo)) body).status = 404 →
        l2 = [] ∧ errTruthy eo = false) := by
  refine ⟨?_, ?_, ?_, ?_⟩
  · simp [get_client_deliveries, pyFalsy, hc, errTruthy, he]
  · simp [get_client_deliveries_v2, pyFalsy, hc, errTruthy, he]
  · intro l2 eo r hr hst
    simp only [get_client_deliveries, pyFalsy, hc, Bool.not_true] at hr
    rw [if_neg (by simp)] at hr
    split at hr
    · obtain rfl := Option.some.inj hr
      rename_i hcond
      simp only [Bool.and_eq_true, Bool.not_eq_true', List.isEmpty_iff] at hcond
      exact ⟨hcond.1, hcond.2⟩
    · split at hr
      · obtain rfl := Option.some.inj hr
        simp [response_json] at hst
      · split at hr
        · have h201 := response_csv_status _ _ _ hr
          rw [h201] at hst
          cases hst
        · obtain rfl := Option.some.inj hr
          simp [response_json] at hst
  · intro l2 eo hst
    simp only [get_client_deliveries_v2, pyFalsy, hc, Bool.not_true] at hst
    rw [if_neg (by simp)] at hst
    split at hst
    · rename_i hcond
      simp only [Bool.and_eq_true, Bool.not_eq_true', List.isEmpty_iff] at hcond
      exact ⟨hcond.1, hcond.2⟩
    · split at hst
      · simp [response_json] at hst
      · simp [response_json] at hst

/-- Witness for C3 (amended): a one-record list with error "boom". -/
theorem C3_error_yields_500_witness :
    get_client_deliveries (fun _ _ _ => ([Val.null], some "boom")) [("client", .str "c")]
      = some (response_json 500 (.obj [("result", .str "boom")]))
    ∧ get_client_deliveries_v2 (fun _ _ _ => ([Val.null], some "boom")) [("client", .str "c")]
      = response_json 500 (.obj [("result", .str "boom")])
    ∧ (∀ l2 eo r,
        get_client_deliveries (fun _ _ _ => (l2, eo)) [("client", .str "c")] = some r →
        r.status = 404 → l2 = [] ∧ errTruthy eo = false)
    ∧ (∀ l2 eo,
        (get_client_deliveries_v2 (fun _ _ _ => (l2, eo)) [("client", .str "c")]).status = 404 →
        l2 = [] ∧ errTruthy eo = false) :=
  C3_error_yields_500 [Val.null] "boom" [("client", .str "c")] rfl (by decide)

/-- A list maps to itself when the function fixes every member. -/
theorem map_id_of_mem {α : Type} {f : α → α} {l : List α}
    (h : ∀ a ∈ l, f a = a) : l.map f = l := by
  induction l with
  | nil => rfl
  | cons a t ih =>
    simp only [List.map_cons, h a (List.mem_cons_self a t)]
    rw [ih fun b hb => h b (List.mem_cons_of_mem a hb)]

/-- The space character never occurs in a normalized argument value
(every space, original or produced from a tab, became an underscore). -/
theorem space_not_mem_transformChars (l : List Char) : ' ' ∉ transformChars l := by
  intro h
  obtain ⟨b, _, hbe⟩ := List.mem_map.mp h
  by_cases hb : b = ' '
  · rw [hb] at hbe; exact absurd hbe (by decide)
  · rw [repSpace, if_neg hb] at hbe; exact hb hbe

/-- The tab character never occurs in a normalized argument value. -/
theorem tab_not_mem_transformChars (l : List Char) : '\t' ∉ transformChars l := by
  intro h
  obtain ⟨b, hbm, hbe⟩ := List.mem_map.mp h
  have hb : b = '\t' := by
    by_cases hsp : b = ' '
    · rw [hsp] at hbe; exact absurd hbe (by decide)
    · rwa [repSpace, if_neg hsp] at hbe
  obtain ⟨a, _, hae⟩ := List.mem_map.mp hbm
  rw [hb] at hae
  by_cases ha : a = '\t'
  · rw [repTab, if_pos ha] at hae; exact absurd hae (by decide)
  · rw [repTab, if_neg ha] at hae; exact ha hae

/-- The head of a `dropWhile` no longer satisfies the predicate. -/
theorem head_dropWhile_not {α : Type} (p : α → Bool) (l : List α) :
    ∀ c ∈ (l.dropWhile p).head?, p c = false := by
  induction l with
  | nil => intro c hc; cases hc
  | cons a t ih =>
    intro c hc
    rw [List.dropWhile_cons] at hc
    by_cases hp : p a
    · rw [if_pos hp] at hc; exact ih c hc
    · rw [if_neg hp] at hc
      cases hc
      simpa using hp

/-- The last element of a `dropWhile` is the last element of the list,
when the result is non-empty. -/
theorem getLast_dropWhile_mem {α : Type} (p : α → Bool) (l : List α) :
    (l.dropWhile p).getLast? = l.getLast? ∨ l.dropWhile p = [] := by
  obtain ⟨t, ht⟩ := (List.dropWhile_suffix p : l.dropWhile p <:+ l)
  by_cases hn : l.dropWhile p = []
  · exact Or.inr hn
  · left
    conv_rhs => rw [← ht]
    exact (List.getLast?_append_of_ne_nil t hn).symm

/-- First character of the stripped list is not whitespace. -/
theorem strip_head_not (l : List Char) :
    ∀ c ∈ (stripChars l).head?, pySpace c = false := by
  intro c hc
  rw [stripChars, List.head?_reverse] at hc
  rcases getLast_dropWhile_mem pySpace (l.dropWhile pySpace).reverse with h | h
  · rw [h, List.getLast?_reverse] at hc
    exact head_dropWhile_not pySpace l c hc
  · rw [h] at hc; cases hc

/-- Last character of the stripped list is not whitespace. -/
theorem strip_getLast_not (l : List Char) :
    ∀ c ∈ (stripChars l).getLast?, pySpace c = false := by
  intro c hc
  rw [stripChars, List.getLast?_reverse] at hc
  exact head_dropWhile_not pySpace (l.dropWhile pySpace).reverse c hc

/-- `dropWhile` is the identity when the head does not satisfy the
predicate. -/
theorem dropWhile_eq_self {α : Type} (p : α → Bool) (l : List α)
    (h : ∀ c ∈ l.head?, p c = false) : l.dropWhile p = l := by
  cases l with
  | nil => rfl
  | cons a t =>
    rw [List.dropWhile_cons, if_neg]
    rw [h a rfl]
    simp

/-- Stripping is the identity on a list with non-whitespace endpoints. -/
theorem stripChars_eq_self (l : List Char)
    (hh : ∀ c ∈ l.head?, pySpace c = false)
    (hl : ∀ c ∈ l.getLast?, pySpace c = false) : stripChars l = l := by
  rw [stripChars, dropWhile_eq_self pySpace l hh]
  rw [dropWhile_eq_self pySpace l.reverse]
  · exact List.reverse_reverse l
  · intro c hc
    rw [List.head?_reverse] at hc
    exact hl c hc

/-- The argument transformation is idempotent on character lists. -/
theorem transformChars_idem (l : List Char) :
    transformChars (transformChars l) = transformChars l := by
  have hnotab := tab_not_mem_transformChars l
  have hnosp := space_not_mem_transformChars l
  have hkeep : ∀ c, pySpace c = false → repSpace (repTab c) = c := by
    intro c hc
    have ht : c ≠ '\t' := by intro h; rw [h] at hc; exact absurd hc (by decide)
    have hs : c ≠ ' ' := by intro h; rw [h] at hc; exact absurd hc (by decide)
    rw [repTab, if_neg ht, repSpace, if_neg hs]
  have hstrip : stripChars (transformChars l) = transformChars l := by
    apply stripChars_eq_self
    · intro c hc
      rw [transformChars, List.head?_map, List.head?_map] at hc
      rcases hs : (stripChars l).head? with _ | a
      · rw [hs] at hc; cases hc
      · rw [hs] at hc
        obtain rfl := Option.some.inj hc
        have ha := strip_head_not l a (hs ▸ rfl)
        rw [hkeep a ha]
        exact ha
    · intro c hc
      rw [transformChars, List.getLast?_map, List.getLast?_map] at hc
      rcases hs : (stripChars l).getLast? with _ | a
      · rw [hs] at hc; cases hc
      · rw [hs] at hc
        obtain rfl := Option.some.inj hc
        have ha := strip_getLast_not l a (hs ▸ rfl)
        rw [hkeep a ha]
        exact ha
  have hmt : (transformChars l).map repTab = transformChars l :=
    map_id_of_mem fun a ha => by
      rw [repTab, if_neg]
      intro h
      rw [h] at ha
      exact hnotab ha
  have hms : (transformChars l).map repSpace = transformChars l :=
    map_id_of_mem fun a ha => by
      rw [repSpace, if_neg]
      intro h
      rw [h] at ha
      exact hnosp ha
  rw [transformChars, hstrip, hmt, hms]

/-- The argument transformation is idempotent on strings. -/
theorem transformArg_idem (s : String) :
    transformArg (transformArg s) = transformArg s := by
  rw [transformArg, transformArg]
  exact congrArg String.mk (transformChars_idem s.data)

/-- An empty transformed value means the strip was already empty. -/
theorem transformArg_empty_iff (s : String) :
    transformArg s = "" ↔ stripChars s.data = [] := by
  rw [transformArg]
  constructor
  · intro h
    have : transformChars s.data = [] := by
      have := congrArg String.data h
      simpa using this
    rw [transformChars] at this
    simpa using this
  · intro h
    rw [transformChars, h]
    rfl

/-- In a mapping with distinct keys (a Python dict), a key determines its
value. -/
theorem assoc_nodup_val_eq {m : List (String × Val)}
    (h : (m.map Prod.fst).Nodup) {k : String} {a b : Val}
    (ha : (k, a) ∈ m) (hb : (k, b) ∈ m) : a = b := by
  induction m with
  | nil => cases ha
  | cons kv t ih =>
    rw [List.map_cons, List.nodup_cons] at h
    rcases List.mem_cons.mp ha with rfl | ha'
    · rcases List.mem_cons.mp hb with hb0 | hb'
      · exact (Prod.mk.injEq _ _ _ _ ▸ hb0.symm).2
      · exact absurd (List.mem_map_of_mem Prod.fst hb') h.1
    · rcases List.mem_cons.mp hb with rfl | hb'
      · exact absurd (List.mem_map_of_mem Prod.fst ha') h.1
      · exact ih h.2 ha' hb'

/-- Claim C7: after `_adjust_arguments`, no retained string value contains
a tab or a leading/trailing space; every key whose string value strips to
empty is gone from the mapping; and entries with non-string values are
kept unchanged.  (The function is a total Lean function, so the model
cannot raise by construction.) -/
theorem C7_normalizer_shape (m : List (String × Val))
    (hnd : (m.map Prod.fst).Nodup) :
    (∀ k s, (k, Val.str s) ∈ adjust_arguments m →
        '\t' ∉ s.data ∧ s.data.head? ≠ some ' ' ∧ s.data.getLast? ≠ some ' ')
    ∧ (∀ k s, (k, Val.str s) ∈ m → stripChars s.data = [] →
        ∀ v, (k, v) ∉ adjust_arguments m)
    ∧ (∀ k v, (k, v) ∈ m → (∀ s, v ≠ Val.str s) → (k, v) ∈ adjust_arguments m) := by
  refine ⟨?_, ?_, ?_⟩
  · intro k s hmem
    rw [adjust_arguments] at hmem
    obtain ⟨⟨k0, v0⟩, _, hf⟩ := List.mem_filterMap.mp hmem
    cases v0 with
    | str s0 =>
      simp only at hf
      by_cases hemp : transformArg s0 = ""
      · rw [if_pos hemp] at hf; cases hf
      · rw [if_neg hemp] at hf
        obtain ⟨rfl, hv⟩ := Prod.mk.injEq _ _ _ _ ▸ Option.some.inj hf
        obtain rfl : transformArg s0 = s := (Val.str.injEq _ _).mp hv
        refine ⟨tab_not_mem_transformChars _, ?_, ?_⟩
        · intro hh
          exact space_not_mem_transformChars s0.data (List.mem_of_mem_head? hh)
        · intro hh
          exact space_not_mem_transformChars s0.data (List.mem_of_mem_getLast? hh)
    | null => simp only at hf; cases Option.some.inj hf
    | bool b => simp only at hf; cases Option.some.inj hf
    | int i => simp only at hf; cases Option.some.inj hf
    | arr xs => simp only at hf; cases Option.some.inj hf
    | obj kvs => simp only at hf; cases Option.some.inj hf
  · intro k s hmem hstrip v hv
    rw [adjust_arguments] at hv
    obtain ⟨⟨k0, v0⟩, hkv, hf⟩ := List.mem_filterMap.mp hv
    have hk0 : k0 = k := by
      cases v0 with
      | str s0 =>
        simp only at hf
        by_cases hemp : transformArg s0 = ""
        · rw [if_pos hemp] at hf; cases hf
        · rw [if_neg hemp] at hf
          exact (Prod.mk.injEq _ _ _ _ ▸ Option.some.inj hf).1
      | null => exact (Prod.mk.injEq _ _ _ _ ▸ Option.some.inj hf).1
      | bool b => exact (Prod.mk.injEq _ _ _ _ ▸ Option.some.inj hf).1
      | int i => exact (Prod.mk.injEq _ _ _ _ ▸ Option.some.inj hf).1
      | arr xs => exact (Prod.mk.injEq _ _ _ _ ▸ Option.some.inj hf).1
      | obj kvs => exact (Prod.mk.injEq _ _ _ _ ▸ Option.some.inj hf).1
    subst hk0
    have hv0 : v0 = Val.str s := assoc_nodup_val_eq hnd hkv hmem
    subst hv0
    simp only at hf
    rw [if_pos ((transformArg_empty_iff s).mpr hstrip)] at hf
    cases hf
  · intro k v hm hns
    rw [adjust_arguments]
    refine List.mem_filterMap.mpr ⟨(k, v), hm, ?_⟩
    cases v with
    | str s => exact absurd rfl (hns s)
    | null => rfl
    | bool b => rfl
    | int i => rfl
    | arr xs => rfl
    | obj kvs => rfl

/-- Witness for C7 at a small mixed mapping. -/
theorem C7_normalizer_shape_witness :
    ((∀ k s, (k, Val.str s) ∈ adjust_arguments [("a", Val.str " x\ty "), ("b", Val.int 3)] →
        '\t' ∉ s.data ∧ s.data.head? ≠ some ' ' ∧ s.data.getLast? ≠ some ' ')
    ∧ (∀ k s, (k, Val.str s) ∈ [("a", Val.str " x\ty "), ("b", Val.int 3)] →
        stripChars s.data = [] →
        ∀ v, (k, v) ∉ adjust_arguments [("a", Val.str " x\ty "), ("b", Val.int 3)])
    ∧ (∀ k v, (k, v) ∈ [("a", Val.str " x\ty "), ("b", Val.int 3)] →
        (∀ s, v ≠ Val.str s) →
        (k, v) ∈ adjust_arguments [("a", Val.str " x\ty "), ("b", Val.int 3)])) :=
  C7_normalizer_shape [("a", Val.str " x\ty "), ("b", Val.int 3)] (by simp)

/-- Claim C8: `_adjust_arguments` is idempotent — normalizing a normalized
mapping changes nothing. -/
theorem C8_normalizer_idempotent (m : List (String × Val)) :
    adjust_arguments (adjust_arguments m) = adjust_arguments m := by
  simp only [adjust_arguments, List.filterMap_filterMap]
  apply List.filterMap_congr
  intro kv _
  obtain ⟨k, v⟩ := kv
  cases v with
  | str s =>
    simp only
    by_cases hemp : transformArg s = ""
    · rw [if_pos hemp]; rfl
    · rw [if_neg hemp]
      rw [Option.some_bind]
      simp only
      rw [transformArg_idem s, if_neg hemp]
  | null => rfl
  | bool b => rfl
  | int i => rfl
  | arr xs => rfl
  | obj kvs => rfl

/-- A `Char`'s code point avoids the surrogate range and fits in Unicode. -/
theorem char_valid_toNat (c : Char) :
    c.toNat < 55296 ∨ (57343 < c.toNat ∧ c.toNat < 1114112) := by
  rcases c.valid with h | ⟨h1, h2⟩
  · exact Or.inl (UInt32.toNat_lt_of_lt (by decide) h)
  · exact Or.inr ⟨UInt32.lt_toNat_of_lt (by decide) h1, UInt32.toNat_lt_of_lt (by decide) h2⟩

/-- `Char.ofNat` round-trips through `toNat` on valid code points. -/
theorem toNat_ofNat_valid (n : Nat) (h : n.isValidChar) : (Char.ofNat n).toNat = n := by
  rw [Char.ofNat, dif_pos h]
  simp [Char.ofNatAux, Char.toNat, UInt32.toNat]

/-- Hex digits round-trip through their character rendering. -/
theorem hexVal_hexDigitC : ∀ d < 16, hexVal (hexDigitC d) = some d := by decide

/-- `parseHex4` undoes `hex4` on values below 2^16. -/
theorem parseHex4_hex4 (n : Nat) (h : n < 65536) (rest : List Char) :
    parseHex4 (hex4 n ++ rest) = some (n, rest) := by
  have h1 := hexVal_hexDigitC (n / 4096 % 16) (Nat.mod_lt _ (by omega))
  have h2 := hexVal_hexDigitC (n / 256 % 16) (Nat.mod_lt _ (by omega))
  have h3 := hexVal_hexDigitC (n / 16 % 16) (Nat.mod_lt _ (by omega))
  have h4 := hexVal_hexDigitC (n % 16) (Nat.mod_lt _ (by omega))
  simp only [hex4, List.cons_append, List.nil_append, parseHex4, h1, h2, h3, h4]
  simp only [Option.some.injEq, Prod.mk.injEq, and_true]
  omega

/-- Every character of a rendered natural number is a decimal digit. -/
theorem natChars_all_digits (n : Nat) : ∀ c ∈ natChars n, isDigitC c = true := by
  induction n using Nat.strong_induction_on with
  | _ n ih =>
    rw [natChars]
    by_cases h : n < 10
    · rw [dif_pos h]
      intro c hc
      rw [List.mem_singleton] at hc
      subst hc
      rw [isDigitC, digitC, toNat_ofNat_valid _ (Or.inl (by omega))]
      simp
      omega
    · rw [dif_neg h]
      intro c hc
      rcases List.mem_append.mp hc with hc | hc
      · exact ih (n / 10) (Nat.div_lt_self (by omega) (by omega)) c hc
      · rw [List.mem_singleton] at hc
        subst hc
        rw [isDigitC, digitC, toNat_ofNat_valid _ (Or.inl (by omega))]
        simp
        omega
  termination_by n

/-- A rendered natural number is never empty. -/
theorem natChars_ne_nil (n : Nat) : natChars n ≠ [] := by
  rw [natChars]
  by_cases h : n < 10
  · rw [dif_pos h]; simp
  · rw [dif_neg h]; simp

/-- Folding decimal digits after an append. -/
theorem digitsVal_append (l : List Char) (d : Char) :
    digitsVal (l ++ [d]) = digitsVal l * 10 + (d.toNat - 48) := by
  rw [digitsVal, digitsVal, List.foldl_append]
  rfl

/-- The decimal rendering of a natural number evaluates back to itself. -/
theorem digitsVal_natChars (n : Nat) : digitsVal (natChars n) = n := by
  induction n using Nat.strong_induction_on with
  | _ n ih =>
    rw [natChars]
    by_cases h : n < 10
    · rw [dif_pos h]
      rw [digitsVal]
      simp only [List.foldl_cons, List.foldl_nil]
      rw [digitC, toNat_ofNat_valid _ (Or.inl (by omega))]
      omega
    · rw [dif_neg h]
      rw [digitsVal_append, ih (n / 10) (Nat.div_lt_self (by omega) (by omega))]
      rw [digitC, toNat_ofNat_valid _ (Or.inl (by omega))]
      omega
  termination_by n

/-- A digit character is not any of the JSON structural characters, nor
whitespace, nor the minus sign. -/
theorem digit_facts (c : Char) (h : isDigitC c = true) :
    c ≠ 'n' ∧ c ≠ 't' ∧ c ≠ 'f' ∧ c ≠ quoteC ∧ c ≠ '[' ∧ c ≠ lbraceC ∧ c ≠ '-'
    ∧ c ≠ ']' ∧ c ≠ rbraceC ∧ c ≠ ',' ∧ jsonWs c = false := by
  rw [isDigitC, Bool.and_eq_true, decide_eq_true_eq, decide_eq_true_eq] at h
  refine ⟨?_, ?_, ?_, ?_, ?_, ?_, ?_, ?_, ?_, ?_, ?_⟩ <;>
    first
    | (intro he; subst he; revert h; decide)
    | (rw [jsonWs]
       have h1 : c ≠ ' ' := by intro he; subst he; revert h; decide
       have h2 : c ≠ '\t' := by intro he; subst he; revert h; decide
       have h3 : c ≠ '\n' := by intro he; subst he; revert h; decide
       have h4 : c ≠ '\r' := by intro he; subst he; revert h; decide
       simp [h1, h2, h3, h4])

/-- `parseNumber` undoes the decimal rendering of an integer, provided the
input does not continue with another digit. -/
theorem parseNumber_intChars (i : Int) (rest : List Char) (h : numOk rest = true) :
    parseNumber (intChars i ++ rest) = some (i, rest) := by
  have hrest : rest.takeWhile isDigitC = [] ∧ rest.dropWhile isDigitC = rest := by
    cases rest with
    | nil => exact ⟨rfl, rfl⟩
    | cons c t =>
      rw [numOk, Bool.not_eq_true'] at h
      exact ⟨by rw [List.takeWhile_cons, h]; rfl, by rw [List.dropWhile_cons, h]; rfl⟩
  have main : ∀ m : Nat, (natChars m ++ rest).takeWhile isDigitC = natChars m
      ∧ (natChars m ++ rest).dropWhile isDigitC = rest := by
    intro m
    constructor
    · rw [List.takeWhile_append_of_pos (natChars_all_digits m), hrest.1, List.append_nil]
    · rw [List.dropWhile_append_of_pos (natChars_all_digits m), hrest.2]
  rcases hn : natChars (i.toNat) with _ | ⟨c, t⟩
  · exact absurd hn (natChars_ne_nil _)
  · rw [intChars]
    by_cases hneg : i < 0
    · rw [if_pos hneg, List.cons_append]
      simp only [parseNumber.eq_def]
      rw [if_pos trivial, (main _).1, (main _).2]
      rw [if_neg (natChars_ne_nil _), digitsVal_natChars]
      simp only [Option.some.injEq, Prod.mk.injEq, and_true]
      omega
    · rw [if_neg hneg, hn, List.cons_append]
      simp only [parseNumber.eq_def]
      have hc : isDigitC c = true :=
        natChars_all_digits _ c (by rw [hn]; exact List.mem_cons_self _ _)
      rw [if_neg (digit_facts c hc).2.2.2.2.2.2.1]
      rw [← List.cons_append, ← hn, (main _).1, (main _).2]
      rw [if_neg (natChars_ne_nil _), digitsVal_natChars]
      simp only [Option.some.injEq, Prod.mk.injEq, and_true]
      omega

/-- The parser decodes an explicit surrogate pair `\uXXXX\uXXXX`. -/
theorem parseStringBody_surr (n m : Nat) (tail : List Char) (fuel : Nat)
    (hn1 : 55296 ≤ n) (hn2 : n ≤ 56319) (hm1 : 56320 ≤ m) (hm2 : m ≤ 57343) :
    parseStringBody (fuel + 1)
        (backslashC :: 'u' :: (hex4 n ++ (backslashC :: 'u' :: (hex4 m ++ tail))))
      = (parseStringBody fuel tail).map fun p =>
          (Char.ofNat (65536 + (n - 55296) * 1024 + (m - 56320)) :: p.1, p.2) := by
  simp only [parseStringBody]
  rw [if_neg (by decide : ¬backslashC = quoteC), if_pos trivial]
  rw [if_neg (by decide : ¬('u' : Char) = quoteC), if_neg (by decide : ¬('u' : Char) = backslashC),
    if_neg (by decide : ¬('u' : Char) = '/'), if_neg (by decide : ¬('u' : Char) = 'n'),
    if_neg (by decide : ¬('u' : Char) = 't'), if_neg (by decide : ¬('u' : Char) = 'r'),
    if_neg (by decide : ¬('u' : Char) = 'b'), if_neg (by decide : ¬('u' : Char) = 'f')]
  rw [if_pos trivial]
  simp only [parseHex4_hex4 n (by omega)]
  rw [if_pos (by rw [decide_eq_true hn1, decide_eq_true hn2]; rfl)]
  rw [if_pos (by decide : (decide True && decide True) = true)]
  simp only [parseHex4_hex4 m (by omega)]
  rw [if_pos (by rw [decide_eq_true hm1, decide_eq_true hm2]; rfl)]

/-- One decoded character: the parser undoes `escChar` at the head of a
string body, spending one unit of fuel. -/
theorem parseStringBody_esc (c : Char) (tail : List Char) (fuel : Nat) :
    parseStringBody (fuel + 1) (escChar c ++ tail)
      = (parseStringBody fuel tail).map fun p => (c :: p.1, p.2) := by
  by_cases h1 : c = quoteC
  · subst h1
    rw [(by decide : escChar quoteC = [backslashC, quoteC])]
    simp [parseStringBody, quoteC, backslashC]
  · by_cases h2 : c = backslashC
    · subst h2
      rw [(by decide : escChar backslashC = [backslashC, backslashC])]
      simp [parseStringBody, quoteC, backslashC]
    · by_cases h3 : c = '\n'
      · subst h3
        rw [(by decide : escChar '\n' = [backslashC, 'n'])]
        simp [parseStringBody, quoteC, backslashC]
      · by_cases h4 : c = '\t'
        · subst h4
          rw [(by decide : escChar '\t' = [backslashC, 't'])]
          simp [parseStringBody, quoteC, backslashC]
        · by_cases h5 : c = '\r'
          · subst h5
            rw [(by decide : escChar '\r' = [backslashC, 'r'])]
            simp [parseStringBody, quoteC, backslashC]
          · by_cases h6 : c.toNat = 8
            · have hc : c = Char.ofNat 8 := by rw [← Char.ofNat_toNat c, h6]
              subst hc
              rw [(by decide : escChar (Char.ofNat 8) = [backslashC, 'b'])]
              simp [parseStringBody, quoteC, backslashC]
            · by_cases h7 : c.toNat = 12
              · have hc : c = Char.ofNat 12 := by rw [← Char.ofNat_toNat c, h7]
                subst hc
                rw [(by decide : escChar (Char.ofNat 12) = [backslashC, 'f'])]
                simp [parseStringBody, quoteC, backslashC]
              · by_cases h8 : c.toNat < 32 ∨ 126 < c.toNat
                · have hval := char_valid_toNat c
                  by_cases h9 : c.toNat < 65536
                  · have he : escChar c = backslashC :: 'u' :: hex4 c.toNat := by
                      rw [escChar]
                      simp only [if_neg h1, if_neg h2, if_neg h3, if_neg h4, if_neg h5,
                        if_neg h6, if_neg h7]
                      rw [if_pos (by simpa using h8), if_pos h9]
                    have hs1 : (decide (55296 ≤ c.toNat) && decide (c.toNat ≤ 56319)) = false := by
                      rcases hval with h | h
                      · rw [decide_eq_false (by omega : ¬55296 ≤ c.toNat), Bool.false_and]
                      · rw [decide_eq_false (by omega : ¬c.toNat ≤ 56319), Bool.and_false]
                    have hs2 : (decide (56320 ≤ c.toNat) && decide (c.toNat ≤ 57343)) = false := by
                      rcases hval with h | h
                      · rw [decide_eq_false (by omega : ¬56320 ≤ c.toNat), Bool.false_and]
                      · rw [decide_eq_false (by omega : ¬c.toNat ≤ 57343), Bool.and_false]
                    rw [he]
                    simp [parseStringBody, quoteC, backslashC,
                      parseHex4_hex4 c.toNat h9, hs1, hs2]
                  · have he : escChar c =
                        (backslashC :: 'u' :: hex4 (55296 + (c.toNat - 65536) / 1024)) ++
                        (backslashC :: 'u' :: hex4 (56320 + (c.toNat - 65536) % 1024)) := by
                      rw [escChar]
                      simp only [if_neg h1, if_neg h2, if_neg h3, if_neg h4, if_neg h5,
                        if_neg h6, if_neg h7]
                      rw [if_pos (by simpa using h8), if_neg h9]
                    have hlt : c.toNat < 1114112 := by rcases hval with h | ⟨_, h⟩ <;> omega
                    have hmod : (c.toNat - 65536) % 1024 < 1024 := Nat.mod_lt _ (by omega)
                    have hdiv : (c.toNat - 65536) / 1024 ≤ 1023 := by omega
                    rw [he]
                    simp only [List.cons_append, List.append_assoc]
                    rw [parseStringBody_surr (55296 + (c.toNat - 65536) / 1024)
                      (56320 + (c.toNat - 65536) % 1024) tail fuel
                      (by omega) (by omega) (by omega) (by omega)]
                    rw [show 65536 + (55296 + (c.toNat - 65536) / 1024 - 55296) * 1024 +
                        (56320 + (c.toNat - 65536) % 1024 - 56320) = c.toNat from by omega]
                    rw [Char.ofNat_toNat]
                · have he : escChar c = [c] := by
                    rw [escChar]
                    simp only [if_neg h1, if_neg h2, if_neg h3, if_neg h4, if_neg h5,
                      if_neg h6, if_neg h7]
                    rw [if_neg (by simpa using h8)]
                  rw [he]
                  simp [parseStringBody, h1, h2]

/-- Escaping a character never produces the empty string. -/
theorem escChar_ne_nil (c : Char) : escChar c ≠ [] := by
  intro h
  rw [escChar] at h
  repeat' split at h
  all_goals simp at h

/-- An escaped string is at least as long as the original. -/
theorem length_le_length_escString (l : List Char) :
    l.length ≤ (l.flatMap escChar).length := by
  induction l with
  | nil => simp
  | cons c t ih =>
    rw [List.flatMap_cons, List.length_append, List.length_cons]
    have : 1 ≤ (escChar c).length := by
      rcases h : escChar c with _ | ⟨a, b⟩
      · exact absurd h (escChar_ne_nil c)
      · simp
    omega

/-- The string-body parser undoes `escChar`-escaping of a whole string,
consuming the closing quote, whenever the fuel exceeds the number of
decoded characters. -/
theorem parseStringBody_escString (l : List Char) :
    ∀ (fuel : Nat) (rest : List Char), l.length + 1 ≤ fuel →
    parseStringBody fuel (l.flatMap escChar ++ quoteC :: rest) = some (l, rest) := by
  induction l with
  | nil =>
    intro fuel rest hf
    obtain ⟨f, rfl⟩ : ∃ f, fuel = f + 1 := ⟨fuel - 1, by omega⟩
    simp only [List.flatMap_nil, List.nil_append, parseStringBody]
    rw [if_pos trivial]
  | cons c t ih =>
    intro fuel rest hf
    obtain ⟨f, rfl⟩ : ∃ f, fuel = f + 1 := ⟨fuel - 1, by omega⟩
    rw [List.flatMap_cons, List.append_assoc, parseStringBody_esc]
    rw [ih f rest (by simp at hf; omega)]
    rfl

/-- The first character of a rendered integer: a minus sign or a digit. -/
theorem intChars_head (i : Int) :
    ∃ c t, intChars i = c :: t ∧ (c = '-' ∨ isDigitC c = true) := by
  rw [intChars]
  by_cases h : i < 0
  · rw [if_pos h]
    exact ⟨'-', _, rfl, Or.inl rfl⟩
  · rw [if_neg h]
    rcases hn : natChars i.toNat with _ | ⟨c, t⟩
    · exact absurd hn (natChars_ne_nil _)
    · exact ⟨c, t, rfl,
        Or.inr (natChars_all_digits _ c (by rw [hn]; exact List.mem_cons_self _ _))⟩

/-- The head character of a serialized number passes all the keyword and
delimiter guards of `parseVal` and triggers its number branch. -/
theorem numHead_facts (c : Char) (hc : c = '-' ∨ isDigitC c = true) :
    jsonWs c = false ∧ c ≠ 'n' ∧ c ≠ 't' ∧ c ≠ 'f' ∧ c ≠ quoteC ∧ c ≠ '[' ∧ c ≠ lbraceC
    ∧ (c = '-' || isDigitC c) = true := by
  rcases hc with rfl | hc
  · decide
  · have hf := digit_facts c hc
    refine ⟨hf.2.2.2.2.2.2.2.2.2.2, hf.1, hf.2.1, hf.2.2.1, hf.2.2.2.1, hf.2.2.2.2.1,
      hf.2.2.2.2.2.1, ?_⟩
    rw [hc, Bool.or_true]

/-- Every serialized value begins with a character that is not whitespace
and not a closing delimiter or separator. -/
theorem dumpsChars_head (v : Val) :
    ∃ c t, dumpsChars v = c :: t
      ∧ jsonWs c = false ∧ c ≠ ']' ∧ c ≠ rbraceC ∧ c ≠ ',' := by
  cases v with
  | null => exact ⟨'n', _, rfl, by decide, by decide, by decide, by decide⟩
  | bool b =>
    cases b
    · exact ⟨'f', _, rfl, by decide, by decide, by decide, by decide⟩
    · exact ⟨'t', _, rfl, by decide, by decide, by decide, by decide⟩
  | int i =>
    obtain ⟨c, t, hct, hc⟩ := intChars_head i
    refine ⟨c, t, hct, ?_, ?_, ?_, ?_⟩
    · exact (numHead_facts c hc).1
    · rcases hc with rfl | hc
      · decide
      · exact (digit_facts c hc).2.2.2.2.2.2.2.1
    · rcases hc with rfl | hc
      · decide
      · exact (digit_facts c hc).2.2.2.2.2.2.2.2.1
    · rcases hc with rfl | hc
      · decide
      · exact (digit_facts c hc).2.2.2.2.2.2.2.2.2.1
  | str s => exact ⟨quoteC, _, rfl, by decide, by decide, by decide, by decide⟩
  | arr xs => exact ⟨'[', _, rfl, by decide, by decide, by decide, by decide⟩
  | obj kvs => exact ⟨lbraceC, _, rfl, by decide, by decide, by decide, by decide⟩

/-- The items of a non-empty array start with a value's head character. -/
theorem dumpsItems_head (x : Val) (xs : List Val) :
    ∃ c t, dumpsItems (x :: xs) = c :: t ∧ jsonWs c = false ∧ c ≠ ']' := by
  obtain ⟨c, t, hct, hws, hbr, _, _⟩ := dumpsChars_head x
  cases xs with
  | nil => exact ⟨c, t, by rw [dumpsItems, hct], hws, hbr⟩
  | cons y ys =>
    exact ⟨c, t ++ ',' :: ' ' :: dumpsItems (y :: ys), by rw [dumpsItems, hct]; rfl, hws, hbr⟩

/-- The members of a non-empty object start with the opening quote of the
first key. -/
theorem dumpsMembers_head (kv : String × Val) (kvs : List (String × Val)) :
    ∃ t, dumpsMembers (kv :: kvs) = quoteC :: t := by
  obtain ⟨k, v⟩ := kv
  cases kvs with
  | nil => exact ⟨_, rfl⟩
  | cons kv2 kvs2 => exact ⟨_, rfl⟩

/-- `parseVal` ignores leading JSON whitespace. -/
theorem parseVal_ws (fuel : Nat) (c : Char) (cs : List Char) (h : jsonWs c = true) :
    parseVal fuel (c :: cs) = parseVal fuel cs := by
  cases fuel with
  | zero => rfl
  | succ f => simp only [parseVal, List.dropWhile_cons, h, if_true]

/-- `parseItems` ignores leading JSON whitespace. -/
theorem parseItems_ws (fuel : Nat) (c : Char) (cs : List Char) (h : jsonWs c = true) :
    parseItems fuel (c :: cs) = parseItems fuel cs := by
  cases fuel with
  | zero => rfl
  | succ f => simp only [parseItems, parseVal_ws f c cs h]

/-- `parseMembers` ignores leading JSON whitespace. -/
theorem parseMembers_ws (fuel : Nat) (c : Char) (cs : List Char) (h : jsonWs c = true) :
    parseMembers fuel (c :: cs) = parseMembers fuel cs := by
  cases fuel with
  | zero => rfl
  | succ f => simp only [parseMembers, List.dropWhile_cons, h, if_true]

/-- Sizes are positive on values. -/
theorem valSize_pos (v : Val) : 1 ≤ valSize v := by
  cases v <;> simp [valSize]

/-- Sizes are positive on non-empty item lists. -/
theorem itemsSize_pos (x : Val) (xs : List Val) : 1 ≤ itemsSize (x :: xs) := by
  rw [itemsSize]
  omega

/-- Sizes are positive on non-empty member lists. -/
theorem membersSize_pos (kv : String × Val) (kvs : List (String × Val)) :
    1 ≤ membersSize (kv :: kvs) := by
  obtain ⟨k, v⟩ := kv
  rw [membersSize]
  omega

/-- `parseStringBody_escString` at exactly the fuel `parseVal` and
`parseMembers` supply (input length plus one). -/
theorem parseStringBody_escString' (l : List Char) (rest : List Char) :
    parseStringBody ((l.flatMap escChar ++ quoteC :: rest).length + 1)
        (l.flatMap escChar ++ quoteC :: rest) = some (l, rest) := by
  apply parseStringBody_escString
  have := length_le_length_escString l
  simp only [List.length_append, List.length_cons]
  omega

/-- Round-trip of the JSON parser against `json.dumps`, by induction on
the parser's fuel: with fuel at least the node count, a serialized value
(or item list, or member list) parses back exactly, leaving the trailing
input, provided the trailing input cannot extend a number literal. -/
theorem parse_dumps : ∀ fuel : Nat,
    (∀ v rest, valSize v ≤ fuel → numOk rest = true →
      parseVal fuel (dumpsChars v ++ rest) = some (v, rest))
    ∧ (∀ x xs rest, itemsSize (x :: xs) ≤ fuel →
      parseItems fuel (dumpsItems (x :: xs) ++ ']' :: rest) = some (x :: xs, rest))
    ∧ (∀ kv kvs rest, membersSize (kv :: kvs) ≤ fuel →
      parseMembers fuel (dumpsMembers (kv :: kvs) ++ rbraceC :: rest) = some (kv :: kvs, rest)) := by
  intro fuel
  induction fuel with
  | zero =>
    refine ⟨?_, ?_, ?_⟩
    · intro v rest hsz _
      have := valSize_pos v
      omega
    · intro x xs rest hsz
      have := itemsSize_pos x xs
      omega
    · intro kv kvs rest hsz
      have := membersSize_pos kv kvs
      omega
  | succ fuel ih =>
    obtain ⟨ihv, ihi, ihm⟩ := ih
    refine ⟨?_, ?_, ?_⟩
    · intro v rest hsz hnum
      cases v with
      | null => simp [parseVal, dumpsChars, expectTok, jsonWs, quoteC, lbraceC]
      | bool b => cases b <;> simp [parseVal, dumpsChars, expectTok, jsonWs, quoteC, lbraceC]
      | int i =>
        obtain ⟨c, t, hct, hc⟩ := intChars_head i
        obtain ⟨hws, hn, ht, hf, hq, hbk, hlb, hnumb⟩ := numHead_facts c hc
        rw [show dumpsChars (.int i) = intChars i from rfl, hct, List.cons_append]
        simp only [parseVal, List.dropWhile_cons, hws, Bool.false_eq_true, if_false]
        rw [if_neg hn, if_neg ht, if_neg hf, if_neg hq, if_neg hbk, if_neg hlb, if_pos hnumb]
        rw [← List.cons_append, ← hct, parseNumber_intChars i rest hnum]
        rfl
      | str s =>
        rw [show dumpsChars (.str s) = quoteC :: (escString s ++ [quoteC]) from rfl,
          List.cons_append, List.append_assoc, List.singleton_append]
        simp only [parseVal, List.dropWhile_cons, (by decide : jsonWs quoteC = false),
          Bool.false_eq_true, if_false]
        rw [if_neg (by decide : quoteC ≠ 'n'), if_neg (by decide : quoteC ≠ 't'),
          if_neg (by decide : quoteC ≠ 'f'), if_pos trivial]
        rw [show escString s = s.data.flatMap escChar from rfl]
        simp only [parseStringBody_escString']
        rfl
      | arr xs =>
        cases xs with
        | nil =>
          rw [show dumpsChars (.arr []) = ['[', ']'] from rfl]
          simp [parseVal, jsonWs, quoteC, lbraceC]

        | cons x xs =>
          obtain ⟨c0, t0, hct, hws, hbr⟩ := dumpsItems_head x xs
          rw [show dumpsChars (.arr (x :: xs)) = '[' :: (dumpsItems (x :: xs) ++ [']']) from rfl,
            List.cons_append, List.append_assoc, List.singleton_append]
          simp only [parseVal, List.dropWhile_cons, (by decide : jsonWs '[' = false),
            Bool.false_eq_true, if_false]
          rw [if_neg (by decide : ('[' : Char) ≠ 'n'), if_neg (by decide : ('[' : Char) ≠ 't'),
            if_neg (by decide : ('[' : Char) ≠ 'f'), if_neg (by decide : ('[' : Char) ≠ quoteC),
            if_pos trivial]
          have hdw : (dumpsItems (x :: xs) ++ ']' :: rest).dropWhile jsonWs
              = dumpsItems (x :: xs) ++ ']' :: rest := by
            apply dropWhile_eq_self
            intro a ha
            rw [hct, List.cons_append] at ha
            cases ha
            exact hws
          rw [hdw, hct, List.cons_append]
          simp only []
          rw [if_neg hbr]
          rw [← List.cons_append, ← hct]
          rw [ihi x xs rest (by
            have h2 : valSize (Val.arr (x :: xs)) = 1 + itemsSize (x :: xs) := rfl
            rw [h2] at hsz
            omega)]
          rfl
      | obj kvs =>
        cases kvs with
        | nil =>
          rw [show dumpsChars (.obj []) = [lbraceC, rbraceC] from rfl]
          simp [parseVal, jsonWs, quoteC, lbraceC, rbraceC]

        | cons kv kvs =>
          obtain ⟨t0, hct⟩ := dumpsMembers_head kv kvs
          rw [show dumpsChars (.obj (kv :: kvs))
              = lbraceC :: (dumpsMembers (kv :: kvs) ++ [rbraceC]) from rfl,
            List.cons_append, List.append_assoc, List.singleton_append]
          simp only [parseVal, List.dropWhile_cons, (by decide : jsonWs lbraceC = false),
            Bool.false_eq_true, if_false]
          rw [if_neg (by decide : lbraceC ≠ 'n'), if_neg (by decide : lbraceC ≠ 't'),
            if_neg (by decide : lbraceC ≠ 'f'), if_neg (by decide : lbraceC ≠ quoteC),
            if_neg (by decide : lbraceC ≠ '['), if_pos trivial]
          have hdw : (dumpsMembers (kv :: kvs) ++ rbraceC :: rest).dropWhile jsonWs
              = dumpsMembers (kv :: kvs) ++ rbraceC :: rest := by
            apply dropWhile_eq_self
            intro a ha
            rw [hct, List.cons_append] at ha
            cases ha
            decide
          rw [hdw, hct, List.cons_append]
          simp only []
          rw [if_neg (by decide : quoteC ≠ rbraceC)]
          rw [← List.cons_append, ← hct]
          rw [ihm kv kvs rest (by
            have h2 : valSize (Val.obj (kv :: kvs)) = 1 + membersSize (kv :: kvs) := rfl
            rw [h2] at hsz
            omega)]
          rfl
    · intro x xs rest hsz
      rw [itemsSize] at hsz
      have hpx := valSize_pos x
      cases xs with
      | nil =>
        rw [show dumpsItems [x] = dumpsChars x from rfl]
        have hv := ihv x (']' :: rest) (by rw [itemsSize] at hsz; omega) rfl
        simp only [parseItems, hv]
        simp only [List.dropWhile_cons, (by decide : jsonWs ']' = false),
          Bool.false_eq_true, if_false]
        rw [if_neg (by decide : (']' : Char) ≠ ','), if_pos trivial]
      | cons y ys =>
        have hpy := itemsSize_pos y ys
        rw [show dumpsItems (x :: y :: ys)
            = dumpsChars x ++ ',' :: ' ' :: dumpsItems (y :: ys) from rfl,
          List.append_assoc, List.cons_append, List.cons_append]
        have hv := ihv x (',' :: ' ' :: (dumpsItems (y :: ys) ++ ']' :: rest))
          (by omega) rfl
        simp only [parseItems, hv]
        simp only [List.dropWhile_cons, (by decide : jsonWs ',' = false),
          Bool.false_eq_true, if_false]
        rw [if_pos trivial]
        rw [parseItems_ws fuel ' ' _ (by decide)]
        rw [ihi y ys rest (by omega)]
        rfl
    · intro kv kvs rest hsz
      obtain ⟨k, v⟩ := kv
      rw [membersSize] at hsz
      have hpv := valSize_pos v
      cases kvs with
      | nil =>
        rw [show dumpsMembers [(k, v)]
            = (quoteC :: (escString k ++ [quoteC])) ++ ':' :: ' ' :: dumpsChars v from rfl]
        simp only [List.cons_append, List.append_assoc, List.singleton_append,
          List.nil_append]
        simp only [parseMembers, List.dropWhile_cons, (by decide : jsonWs quoteC = false),
          Bool.false_eq_true, if_false]
        rw [if_pos trivial]
        rw [show escString k = k.data.flatMap escChar from rfl]
        simp only [parseStringBody_escString']
        simp only [List.dropWhile_cons, (by decide : jsonWs ':' = false),
          Bool.false_eq_true, if_false]
        rw [if_pos trivial]
        rw [parseVal_ws fuel ' ' _ (by decide)]
        have hv := ihv v (rbraceC :: rest) (by omega) rfl
        simp only [hv]
        simp only [List.dropWhile_cons, (by decide : jsonWs rbraceC = false),
          Bool.false_eq_true, if_false]
        rw [if_neg (by decide : rbraceC ≠ ','), if_pos trivial]
      | cons kv2 kvs2 =>
        have hp2 := membersSize_pos kv2 kvs2
        rw [show dumpsMembers ((k, v) :: kv2 :: kvs2)
            = (quoteC :: (escString k ++ [quoteC])) ++ ':' :: ' ' :: dumpsChars v ++
              ',' :: ' ' :: dumpsMembers (kv2 :: kvs2) from rfl]
        simp only [List.cons_append, List.append_assoc, List.singleton_append,
          List.nil_append]
        simp only [parseMembers, List.dropWhile_cons, (by decide : jsonWs quoteC = false),
          Bool.false_eq_true, if_false]
        rw [if_pos trivial]
        rw [show escString k = k.data.flatMap escChar from rfl]
        simp only [parseStringBody_escString']
        simp only [List.dropWhile_cons, (by decide : jsonWs ':' = false),
          Bool.false_eq_true, if_false]
        rw [if_pos trivial]
        rw [parseVal_ws fuel ' ' _ (by decide)]
        have hv := ihv v (',' :: ' ' :: (dumpsMembers (kv2 :: kvs2) ++ rbraceC :: rest))
          (by omega) rfl
        simp only [hv]
        simp only [List.dropWhile_cons, (by decide : jsonWs ',' = false),
          Bool.false_eq_true, if_false]
        rw [if_pos trivial]
        rw [parseMembers_ws fuel ' ' _ (by decide)]
        rw [ihm kv2 kvs2 rest (by omega)]
        rfl

/-- The node count of a value is bounded by the length of its serialized
form (so the fuel `loads` supplies is always sufficient). -/
theorem sizeLen : ∀ fuel : Nat,
    (∀ v, valSize v ≤ fuel → valSize v ≤ (dumpsChars v).length)
    ∧ (∀ xs, itemsSize xs ≤ fuel → itemsSize xs ≤ (dumpsItems xs).length + 1)
    ∧ (∀ kvs, membersSize kvs ≤ fuel → membersSize kvs ≤ (dumpsMembers kvs).length + 1) := by
  intro fuel
  induction fuel with
  | zero =>
    refine ⟨?_, ?_, ?_⟩
    · intro v h
      have := valSize_pos v
      omega
    · intro xs h
      cases xs with
      | nil => simp [itemsSize]
      | cons x xs =>
        have := itemsSize_pos x xs
        omega
    · intro kvs h
      cases kvs with
      | nil => simp [membersSize]
      | cons kv kvs =>
        have := membersSize_pos kv kvs
        omega
  | succ fuel ih =>
    obtain ⟨ihv, ihi, ihm⟩ := ih
    refine ⟨?_, ?_, ?_⟩
    · intro v hsz
      cases v with
      | null => simp [valSize, dumpsChars]
      | bool b => cases b <;> simp [valSize, dumpsChars]
      | int i =>
        obtain ⟨c, t, hct, _⟩ := intChars_head i
        rw [show valSize (.int i) = 1 from rfl,
          show dumpsChars (.int i) = intChars i from rfl, hct]
        simp
      | str s =>
        rw [show valSize (.str s) = 1 from rfl,
          show dumpsChars (.str s) = quoteC :: (escString s ++ [quoteC]) from rfl]
        simp
      | arr xs =>
        have h1 : valSize (Val.arr xs) = 1 + itemsSize xs := rfl
        have h2 : dumpsChars (Val.arr xs) = '[' :: (dumpsItems xs ++ [']']) := rfl
        rw [h1, h2]
        cases xs with
        | nil =>
          rw [show itemsSize ([] : List Val) = 0 from rfl]
          simp
        | cons x xs2 =>
          have hi := ihi (x :: xs2) (by rw [h1] at hsz; omega)
          simp only [List.length_cons, List.length_append]
          omega
      | obj kvs =>
        have h1 : valSize (Val.obj kvs) = 1 + membersSize kvs := rfl
        have h2 : dumpsChars (Val.obj kvs) = lbraceC :: (dumpsMembers kvs ++ [rbraceC]) := rfl
        rw [h1, h2]
        cases kvs with
        | nil =>
          rw [show membersSize ([] : List (String × Val)) = 0 from rfl]
          simp
        | cons kv kvs2 =>
          have hi := ihm (kv :: kvs2) (by rw [h1] at hsz; omega)
          simp only [List.length_cons, List.length_append]
          omega
    · intro xs hsz
      cases xs with
      | nil => simp [itemsSize]
      | cons x xs2 =>
        rw [itemsSize] at hsz ⊢
        cases xs2 with
        | nil =>
          rw [show dumpsItems [x] = dumpsChars x from rfl]
          have hx := ihv x (by have := valSize_pos x; omega)
          rw [show itemsSize ([] : List Val) = 0 from rfl]
          omega
        | cons y ys =>
          rw [show dumpsItems (x :: y :: ys)
              = dumpsChars x ++ ',' :: ' ' :: dumpsItems (y :: ys) from rfl]
          have hpy := itemsSize_pos y ys
          have hx := ihv x (by omega)
          have hy := ihi (y :: ys) (by omega)
          simp only [List.length_append, List.length_cons]
          omega
    · intro kvs hsz
      cases kvs with
      | nil => simp [membersSize]
      | cons kv kvs2 =>
        obtain ⟨k, v⟩ := kv
        rw [membersSize] at hsz ⊢
        cases kvs2 with
        | nil =>
          rw [show dumpsMembers [(k, v)]
              = (quoteC :: (escString k ++ [quoteC])) ++ ':' :: ' ' :: dumpsChars v from rfl]
          have hx := ihv v (by have := valSize_pos v; omega)
          rw [show membersSize ([] : List (String × Val)) = 0 from rfl]
          simp only [List.length_append, List.length_cons]
          omega
        | cons kv2 kvs3 =>
          rw [show dumpsMembers ((k, v) :: kv2 :: kvs3)
              = (quoteC :: (escString k ++ [quoteC])) ++ ':' :: ' ' :: dumpsChars v ++
                ',' :: ' ' :: dumpsMembers (kv2 :: kvs3) from rfl]
          have hp2 := membersSize_pos kv2 kvs3
          have hx := ihv v (by omega)
          have hy := ihm (kv2 :: kvs3) (by omega)
          simp only [List.length_append, List.length_cons]
          omega

/-- `json.loads` inverts `json.dumps`. -/
theorem loads_dumps (v : Val) : loads (dumps v) = some v := by
  have hd : (dumps v).data = dumpsChars v := rfl
  have hrt := (parse_dumps ((dumpsChars v).length + 1)).1 v []
    (by have := (sizeLen (valSize v)).1 v le_rfl; omega) rfl
  rw [List.append_nil] at hrt
  simp only [loads, hd, hrt]
  simp

/-- Counterexample to claim C6 as stated: a string payload is emitted
verbatim by `response_json` (not JSON-serialized), so the body of the
string value "1" is the bare text `1`, which decodes to the NUMBER 1 —
not back to the string — and the round-trip fails. -/
theorem C6_counterexample :
    loads ((response_json 200 (Val.str "1")).response) ≠ some (Val.str "1") := by
  intro h
  have h0 : loads ((response_json 200 (Val.str "1")).response) = some (Val.int 1) := rfl
  rw [h0] at h
  exact Val.noConfusion (Option.some.inj h)

/-- Claim C6, amended: for every NON-STRING value accepted by the JSON
encoder, JSON-decoding the produced response body yields the value back
(string payloads are passed through verbatim and need not round-trip);
for every value the response carries both `Content-Type` and `mimetype`
equal to `application/json`. -/
theorem C6_json_roundtrip (code : Nat) (v : Val) :
    ((∀ s, v ≠ Val.str s) → loads ((response_json code v).response) = some v)
    ∧ (response_json code v).content_type = some "application/json"
    ∧ (response_json code v).mimetype = some "application/json" := by
  refine ⟨?_, rfl, rfl⟩
  intro hs
  have hbody : (response_json code v).response = dumps v := by
    cases v with
    | str s => exact absurd rfl (hs s)
    | null => rfl
    | bool b => rfl
    | int i => rfl
    | arr xs => rfl
    | obj kvs => rfl
  rw [hbody, loads_dumps]

/-- Witness for C6 (amended) at the one-element array `[1]`. -/
theorem C6_json_roundtrip_witness :
    loads ((response_json 200 (Val.arr [Val.int 1])).response) = some (Val.arr [Val.int 1])
    ∧ (response_json 200 (Val.arr [Val.int 1])).content_type = some "application/json"
    ∧ (response_json 200 (Val.arr [Val.int 1])).mimetype = some "application/json" :=
  ⟨(C6_json_roundtrip 200 (Val.arr [Val.int 1])).1 (fun s h => Val.noConfusion h),
   (C6_json_roundtrip 200 (Val.arr [Val.int 1])).2.1,
   (C6_json_roundtrip 200 (Val.arr [Val.int 1])).2.2⟩
